import Mathlib

/-!
Shallow embedding of the snake-game core of `src/main.rs` (crate `rust-snake`).

The embedded parts are:

* the data model (`MovementDirection`, `World`) — the Rust `World` also owns a
  `ThreadRng`; randomness is modelled by passing the stream of values that
  `gen_range` would produce as an explicit argument (`rolls`) to the food code;
* `World.init` / `World.new` (construction),
* `World.step` (the per-tick update, including the in-place shift loop and the
  `wrap` closure with its `usize`/`i32`/`u32` casts),
* the food-eaten check of `main`'s event loop (growth by pushing a duplicate of
  the head, and the unbounded re-roll loop for the new food position),
* the key handlers of `main` (direction assignment, pause toggle).

Coordinates are Rust `usize` values, embedded as `Nat`; the `as i32` / `as u32`
casts of the source are modelled explicitly by truncation/reinterpretation on
`Nat`/`Int`.  Rust's `%` on `i32` is truncated remainder, i.e. `Int.tmod`.
Operations that can panic or diverge are embedded as `Option`-valued functions
(`none` = panic) or take an explicit termination certificate (the food re-roll
loop).
-/

namespace RustSnake

/-- A grid cell `[row, col]` (Rust `[usize; 2]`): `.1` is the row, `.2` the
column. -/
abbrev Cell := Nat × Nat

/-- Rust `enum MovementDirection { Up, Left, Down, Right }`. -/
inductive MovementDirection : Type
  | Up
  | Left
  | Down
  | Right
deriving DecidableEq, Repr

/-- Rust `struct World`.  The `rng: ThreadRng` field is omitted: the random
values it produces are passed explicitly to the food-placement code below. -/
structure World : Type where
  is_running : Bool
  row_count : Nat
  col_count : Nat
  movement_direction : MovementDirection
  snake_body : List Cell
deriving DecidableEq, Repr

/-- Rust `usize as u32`: truncation modulo `2^32`. -/
def toU32 (n : Nat) : Nat := n % 4294967296

/-- Rust `u32 as i32`: reinterpretation of a value `< 2^32` as a signed
32-bit integer. -/
def u32ToI32 (n : Nat) : Int :=
  if n < 2147483648 then (n : Int) else (n : Int) - 4294967296

/-- Rust `usize as i32`: truncate to 32 bits, then reinterpret as signed. -/
def usizeToI32 (n : Nat) : Int := u32ToI32 (toU32 n)

/-- Rust `i32 as usize`: sign-extend to 64 bits and reinterpret as unsigned,
i.e. reduce modulo `2^64` (the argument is an `i32` value, so it lies in
`[-2^31, 2^31)` and the result of the Euclidean `%` is its two's-complement
64-bit pattern). -/
def i32ToUsize (n : Int) : Nat := (n % 18446744073709551616).toNat

/-- The `wrap` closure of `World::step`:
`|n: i32, max: u32| { let max = max as i32; if n >= 0 { n % max } else { (max + (n % max)) % max } }`.
Rust's `%` on `i32` is truncated remainder (`Int.tmod`). -/
def wrap (n : Int) (max : Nat) : Int :=
  let m : Int := u32ToI32 max
  if 0 ≤ n then Int.tmod n m else Int.tmod (m + Int.tmod n m) m

/-- One iteration `self.snake_body[i] = self.snake_body[i + 1]` of the shift
loop in `World::step` (both coordinates are copied, i.e. the whole cell).  The
read `b[i+1]` is always in bounds when the loop runs (`i < len - 1`), so the
default value of `getD` is never produced. -/
def shiftStep (b : List Cell) (i : Nat) : List Cell :=
  b.set i (b.getD (i + 1) (0, 0))

/-- The shift loop `for i in 0..len - 1 { ... }` of `World::step`, acting on
the body in place, left to right. -/
def shiftBody (b : List Cell) : List Cell :=
  (List.range (b.length - 1)).foldl shiftStep b

/-- The head update of `World::step`: the `match self.movement_direction`
writing through `last_mut()`, with the source's casts made explicit:
`last[0] = wrap(last[0] as i32 - 1, self.row_count as u32) as usize` etc. -/
def stepHead (dir : MovementDirection) (last : Cell) (row_count col_count : Nat) : Cell :=
  match dir with
  | .Up => (i32ToUsize (wrap (usizeToI32 last.1 - 1) (toU32 row_count)), last.2)
  | .Left => (last.1, i32ToUsize (wrap (usizeToI32 last.2 - 1) (toU32 col_count)))
  | .Down => (i32ToUsize (wrap (usizeToI32 last.1 + 1) (toU32 row_count)), last.2)
  | .Right => (last.1, i32ToUsize (wrap (usizeToI32 last.2 + 1) (toU32 col_count)))

/-- Rust `World::step`.  `none` models a panic: with an empty body the loop
bound `len - 1` underflows (`0..usize::MAX`) and the first body index is out
of bounds, so the call never completes.  Otherwise: early return when paused,
then the shift loop, then the head update through `last_mut()` (whose `None`
branch of `if let` leaves the body as the loop left it). -/
def World.step (w : World) : Option World :=
  if !w.is_running then
    some w
  else if w.snake_body = [] then
    none
  else
    let b := shiftBody w.snake_body
    match b.getLast? with
    | none => some { w with snake_body := b }
    | some last =>
        some { w with
          snake_body :=
            b.dropLast ++ [stepHead w.movement_direction last w.row_count w.col_count] }

/-- Rust `World::init`: set the direction to `Left` and push the three initial
cells `[0,0]`, `[0,1]`, `[0,2]` (so the head — the last element — is `[0,2]`). -/
def World.init (w : World) : World :=
  { w with
    movement_direction := .Left,
    snake_body := ((w.snake_body ++ [(0, 0)]) ++ [(0, 1)]) ++ [(0, 2)] }

/-- Rust `World::new`: build the record (running, the given dimensions,
direction `Up`, empty body) and then run `init` on it. -/
def World.new (rows cols : Nat) : World :=
  World.init
    { is_running := true
      row_count := rows
      col_count := cols
      movement_direction := .Up
      snake_body := [] }

/-- A direction-key handler of `main`'s event loop:
`world.movement_direction = d`. -/
def setDirection (w : World) (d : MovementDirection) : World :=
  { w with movement_direction := d }

/-- The space-key handler of `main`'s event loop:
`world.is_running = !world.is_running`. -/
def toggleRunning (w : World) : World :=
  { w with is_running := !w.is_running }

/-- Termination condition of the food re-roll loop
`while world.snake_body.contains(&food_pos) { food_pos = ... }` fed by the
stream `rolls` of cells produced by the two `gen_range` calls: some roll in
the stream is outside the snake body. -/
def rerollTerminates (body : List Cell) (rolls : Nat → Cell) : Prop :=
  ∃ k, rolls k ∉ body

/-- The value the food re-roll loop leaves in `food_pos`: the first roll of the
stream that is not on the snake body (the roll taken before the `while` test is
`rolls 0`, each further iteration consumes the next roll). -/
def rerollFood (body : List Cell) (rolls : Nat → Cell) (h : rerollTerminates body rolls) : Cell :=
  rolls (Nat.find h)

/-- The food-eaten check of `main`'s event loop, acting on the snake body and
`food_pos`.  `none` models the panic of `last().unwrap()` on an empty body.
When the head equals the food, a clone of `last().unwrap()` — which in this
branch is the food cell itself — is pushed as the new tail, and `food_pos` is
re-rolled until it leaves the (grown) body; `hterm` certifies that this loop
terminates.  Otherwise nothing changes. -/
def checkAndGrow (body : List Cell) (food : Cell) (rolls : Nat → Cell)
    (hterm : body.getLast? = some food → rerollTerminates (body ++ [food]) rolls) :
    Option (List Cell × Cell) :=
  match body.getLast? with
  | none => none
  | some _ =>
      if h : body.getLast? = some food then
        some (body ++ [food], rerollFood (body ++ [food]) rolls (hterm h))
      else
        some (body, food)

/-- The world states reachable by the program: `World::new(20, 20)` at start
(any dimensions are allowed here, which only widens the set), then any
interleaving of ticks (`step`, when it completes), direction keys, the pause
key, and the food-eaten growth push `snake_body.push(last().unwrap().clone())`. -/
inductive Reachable : World → Prop
  | new_world (rows cols : Nat) : Reachable (World.new rows cols)
  | tick {w w' : World} : Reachable w → w.step = some w' → Reachable w'
  | key_dir {w : World} (d : MovementDirection) : Reachable w → Reachable (setDirection w d)
  | key_pause {w : World} : Reachable w → Reachable (toggleRunning w)
  | grow {w : World} {hd : Cell} : Reachable w → w.snake_body.getLast? = some hd →
      Reachable { w with snake_body := w.snake_body ++ [hd] }

/-! ### The shift loop -/

theorem foldl_shiftStep_length (l : List Nat) (b : List Cell) :
    (l.foldl shiftStep b).length = b.length := by
  induction l generalizing b with
  | nil => rfl
  | cons x xs ih => simp [List.foldl_cons, ih, shiftStep]

theorem foldl_shiftStep_getElem? (b : List Cell) (k : Nat) (hk : k + 1 ≤ b.length) :
    ∀ j, ((List.range k).foldl shiftStep b)[j]? = if j < k then b[j + 1]? else b[j]? := by
  induction k with
  | zero => simp
  | succ k ih =>
      intro j
      have hk' : k + 1 ≤ b.length := Nat.le_of_succ_le hk
      rw [List.range_succ, List.foldl_append, List.foldl_cons, List.foldl_nil]
      have hlen : ((List.range k).foldl shiftStep b).length = b.length :=
        foldl_shiftStep_length _ _
      have hread : ((List.range k).foldl shiftStep b).getD (k + 1) (0, 0) = b.get ⟨k + 1, hk⟩ := by
        rw [List.getD_eq_getElem?_getD, ih hk' (k + 1), if_neg (by omega),
          List.getElem?_eq_getElem hk]
        rfl
      rw [shiftStep, hread, List.getElem?_set]
      rcases Nat.lt_trichotomy j k with hj | hj | hj
      · rw [if_neg (by omega), ih hk' j, if_pos hj, if_pos (by omega)]
      · subst hj
        rw [if_pos rfl, if_pos (by omega), if_pos (by omega),
          List.getElem?_eq_getElem hk]
        rfl
      · rw [if_neg (by omega), ih hk' j, if_neg (by omega), if_neg (by omega)]

theorem shiftBody_length (b : List Cell) : (shiftBody b).length = b.length :=
  foldl_shiftStep_length _ _

theorem shiftBody_getElem? {b : List Cell} (hb : b ≠ []) (j : Nat) :
    (shiftBody b)[j]? = if j < b.length - 1 then b[j + 1]? else b[j]? :=
  foldl_shiftStep_getElem? b (b.length - 1)
    (by have := List.length_pos.mpr hb; omega) j

theorem shiftBody_getLast? (b : List Cell) : (shiftBody b).getLast? = b.getLast? := by
  rcases eq_or_ne b [] with rfl | hb
  · rfl
  · have hpos : 0 < b.length := List.length_pos.mpr hb
    rw [List.getLast?_eq_getElem?, List.getLast?_eq_getElem?, shiftBody_length,
      shiftBody_getElem? hb, if_neg (by omega)]

theorem mem_of_mem_shiftBody {b : List Cell} {x : Cell} (hx : x ∈ shiftBody b) : x ∈ b := by
  rcases eq_or_ne b [] with rfl | hb
  · exact hx
  · rcases List.mem_iff_getElem?.mp hx with ⟨j, hj⟩
    rw [shiftBody_getElem? hb j] at hj
    split at hj
    · exact List.mem_iff_getElem?.mpr ⟨j + 1, hj⟩
    · exact List.mem_iff_getElem?.mpr ⟨j, hj⟩

/-! ### The wrap arithmetic -/

theorem tmod_neg_arg (a b : Int) : Int.tmod (-a) b = -Int.tmod a b := by
  rw [Int.tmod_def, Int.tmod_def, Int.neg_tdiv]; ring

theorem u32ToI32_of_lt {n : Nat} (h : n < 2147483648) : u32ToI32 n = (n : Int) := by
  rw [u32ToI32, if_pos h]

theorem toU32_of_lt {n : Nat} (h : n < 4294967296) : toU32 n = n :=
  Nat.mod_eq_of_lt h

theorem usizeToI32_of_lt {n : Nat} (h : n < 2147483648) : usizeToI32 n = (n : Int) := by
  rw [usizeToI32, toU32_of_lt (by omega), u32ToI32_of_lt h]

theorem i32ToUsize_of_bounds {v : Int} (h0 : 0 ≤ v) (h1 : v < 18446744073709551616) :
    i32ToUsize v = v.toNat := by
  rw [i32ToUsize, Int.emod_eq_of_lt h0 h1]

theorem wrap_eq_emod (n : Int) (max : Nat) (h0 : 0 < max) (h31 : max < 2147483648) :
    wrap n (toU32 max) = n % (max : Int) := by
  have hmax : (0 : Int) < (max : Int) := by exact_mod_cast h0
  rw [wrap, toU32_of_lt (by omega), u32ToI32_of_lt h31]
  by_cases hn : 0 ≤ n
  · rw [if_pos hn, Int.tmod_eq_emod hn (Int.le_of_lt hmax)]
  · rw [if_neg hn]
    push_neg at hn
    have hto : Int.tmod n (max : Int) = -Int.tmod (-n) (max : Int) := by
      rw [← tmod_neg_arg, Int.neg_neg]
    have h1 : 0 ≤ Int.tmod (-n) (max : Int) := Int.tmod_nonneg _ (by omega)
    have h2 : Int.tmod (-n) (max : Int) < (max : Int) := Int.tmod_lt_of_pos _ hmax
    have hne : (0 : Int) ≤ (max : Int) + Int.tmod n (max : Int) := by omega
    rw [Int.tmod_eq_emod hne (Int.le_of_lt hmax)]
    have e1 : ((max : Int) + Int.tmod n (max : Int)) % (max : Int)
        = Int.tmod n (max : Int) % (max : Int) := by
      have : (max : Int) + Int.tmod n (max : Int)
          = Int.tmod n (max : Int) + (max : Int) * 1 := by ring
      rw [this, Int.add_mul_emod_self_left]
    have e2 : Int.tmod n (max : Int) % (max : Int) = n % (max : Int) := by
      have hdef : Int.tmod n (max : Int) = n + (max : Int) * (-(n.tdiv (max : Int))) := by
        rw [Int.tmod_def]; ring
      rw [hdef, Int.add_mul_emod_self_left]
    rw [e1, e2]

theorem wrap_dec_eq (r max : Nat) (h0 : 0 < max) (h31 : max < 2147483648) (hr : r < max) :
    i32ToUsize (wrap (usizeToI32 r - 1) (toU32 max)) = (r + max - 1) % max := by
  rw [usizeToI32_of_lt (by omega), wrap_eq_emod _ max h0 h31]
  have e1 : ((r : Int) - 1) % (max : Int) = ((r : Int) - 1 + (max : Int) * 1) % (max : Int) :=
    (Int.add_mul_emod_self_left _ _ _).symm
  have e2 : (r : Int) - 1 + (max : Int) * 1 = ((r + max - 1 : Nat) : Int) := by
    push_cast [Nat.cast_sub (by omega : 1 ≤ r + max)]; ring
  have e3 : ((r + max - 1 : Nat) : Int) % ((max : Nat) : Int) = (((r + max - 1) % max : Nat) : Int) :=
    (Int.natCast_mod _ _).symm
  rw [e1, e2, e3, i32ToUsize_of_bounds (by positivity)
    (by exact_mod_cast Nat.lt_trans (Nat.mod_lt _ h0) (by omega)), Int.toNat_natCast]

theorem wrap_inc_eq (r max : Nat) (h0 : 0 < max) (h31 : max < 2147483648) (hr : r < max) :
    i32ToUsize (wrap (usizeToI32 r + 1) (toU32 max)) = (r + 1) % max := by
  rw [usizeToI32_of_lt (by omega), wrap_eq_emod _ max h0 h31]
  have e2 : (r : Int) + 1 = ((r + 1 : Nat) : Int) := by push_cast; ring
  have e3 : ((r + 1 : Nat) : Int) % ((max : Nat) : Int) = (((r + 1) % max : Nat) : Int) :=
    (Int.natCast_mod _ _).symm
  rw [e2, e3, i32ToUsize_of_bounds (by positivity)
    (by exact_mod_cast Nat.lt_trans (Nat.mod_lt _ h0) (by omega)), Int.toNat_natCast]

/-- Arithmetic form of the head update for `Up`, valid for an in-bounds head
row on a grid whose row count fits in an `i32` (so that all the casts are the
identity). -/
theorem stepHead_up_eq (r c rc cc : Nat)
    (hrc0 : 0 < rc) (hrc31 : rc < 2147483648) (hr : r < rc) :
    stepHead .Up (r, c) rc cc = ((r + rc - 1) % rc, c) := by
  show (i32ToUsize (wrap (usizeToI32 r - 1) (toU32 rc)), c) = _
  rw [wrap_dec_eq r rc hrc0 hrc31 hr]

/-- Arithmetic form of the head update for `Down` under the same conditions. -/
theorem stepHead_down_eq (r c rc cc : Nat)
    (hrc0 : 0 < rc) (hrc31 : rc < 2147483648) (hr : r < rc) :
    stepHead .Down (r, c) rc cc = ((r + 1) % rc, c) := by
  show (i32ToUsize (wrap (usizeToI32 r + 1) (toU32 rc)), c) = _
  rw [wrap_inc_eq r rc hrc0 hrc31 hr]

/-- Arithmetic form of the head update for `Left` under the same conditions on
the column count. -/
theorem stepHead_left_eq (r c rc cc : Nat)
    (hcc0 : 0 < cc) (hcc31 : cc < 2147483648) (hc : c < cc) :
    stepHead .Left (r, c) rc cc = (r, (c + cc - 1) % cc) := by
  show (r, i32ToUsize (wrap (usizeToI32 c - 1) (toU32 cc))) = _
  rw [wrap_dec_eq c cc hcc0 hcc31 hc]

/-- Arithmetic form of the head update for `Right` under the same conditions. -/
theorem stepHead_right_eq (r c rc cc : Nat)
    (hcc0 : 0 < cc) (hcc31 : cc < 2147483648) (hc : c < cc) :
    stepHead .Right (r, c) rc cc = (r, (c + 1) % cc) := by
  show (r, i32ToUsize (wrap (usizeToI32 c + 1) (toU32 cc))) = _
  rw [wrap_inc_eq c cc hcc0 hcc31 hc]

/-- The updated head stays inside the grid whenever the previous head was and
both dimensions are positive and fit in an `i32`. -/
theorem stepHead_bounds (dir : MovementDirection) (r c rc cc : Nat)
    (hrc0 : 0 < rc) (hrc31 : rc < 2147483648)
    (hcc0 : 0 < cc) (hcc31 : cc < 2147483648)
    (hr : r < rc) (hc : c < cc) :
    (stepHead dir (r, c) rc cc).1 < rc ∧ (stepHead dir (r, c) rc cc).2 < cc := by
  cases dir
  · rw [stepHead_up_eq r c rc cc hrc0 hrc31 hr]
    exact ⟨Nat.mod_lt _ hrc0, hc⟩
  · rw [stepHead_left_eq r c rc cc hcc0 hcc31 hc]
    exact ⟨hr, Nat.mod_lt _ hcc0⟩
  · rw [stepHead_down_eq r c rc cc hrc0 hrc31 hr]
    exact ⟨Nat.mod_lt _ hrc0, hc⟩
  · rw [stepHead_right_eq r c rc cc hcc0 hcc31 hc]
    exact ⟨hr, Nat.mod_lt _ hcc0⟩

/-! ### Structure of `World.step` -/

theorem step_not_running {w : World} (h : w.is_running = false) : w.step = some w := by
  simp [World.step, h]

theorem step_running_eq {w : World} (hrun : w.is_running = true) (hne : w.snake_body ≠ []) :
    w.step = some { w with snake_body :=
      (shiftBody w.snake_body).dropLast ++
        [stepHead w.movement_direction (w.snake_body.getLast hne) w.row_count w.col_count] } := by
  simp only [World.step, hrun, Bool.not_true, Bool.false_eq_true, if_false, if_neg hne]
  rw [shiftBody_getLast?, List.getLast?_eq_getLast _ hne]

theorem step_empty_running {w : World} (hrun : w.is_running = true)
    (he : w.snake_body = []) : w.step = none := by
  simp [World.step, hrun, he]

theorem step_length_eq {w w' : World} (h : w.step = some w') :
    w'.snake_body.length = w.snake_body.length := by
  by_cases hrun : w.is_running = true
  · by_cases hne : w.snake_body = []
    · rw [step_empty_running hrun hne] at h; cases h
    · rw [step_running_eq hrun hne] at h
      injection h with h
      subst h
      have hpos : 0 < w.snake_body.length := List.length_pos.mpr hne
      simp only [List.length_append, List.length_dropLast, shiftBody_length,
        List.length_singleton]
      omega
  · rw [step_not_running (by simpa using hrun)] at h
    injection h with h
    subst h
    rfl

theorem step_frame {w w' : World} (h : w.step = some w') :
    w'.is_running = w.is_running ∧ w'.row_count = w.row_count ∧
      w'.col_count = w.col_count ∧ w'.movement_direction = w.movement_direction := by
  by_cases hrun : w.is_running = true
  · by_cases hne : w.snake_body = []
    · rw [step_empty_running hrun hne] at h; cases h
    · rw [step_running_eq hrun hne] at h
      injection h with h
      subst h
      exact ⟨rfl, rfl, rfl, rfl⟩
  · rw [step_not_running (by simpa using hrun)] at h
    injection h with h
    subst h
    exact ⟨rfl, rfl, rfl, rfl⟩

theorem step_getElem? {w w' : World} (hrun : w.is_running = true) (hne : w.snake_body ≠ [])
    (h : w.step = some w') (i : Nat) (hi : i + 1 < w.snake_body.length) :
    w'.snake_body[i]? = w.snake_body[i + 1]? := by
  rw [step_running_eq hrun hne] at h
  injection h with h
  subst h
  show ((shiftBody w.snake_body).dropLast ++ _)[i]? = _
  rw [List.getElem?_append_left
      (by rw [List.length_dropLast, shiftBody_length]; omega),
    List.getElem?_dropLast, shiftBody_length, if_pos (by omega),
    shiftBody_getElem? hne, if_pos (by omega)]

theorem step_getLast {w w' : World} (hrun : w.is_running = true) (hne : w.snake_body ≠ [])
    (h : w.step = some w') :
    w'.snake_body.getLast? =
      some (stepHead w.movement_direction (w.snake_body.getLast hne) w.row_count w.col_count) := by
  rw [step_running_eq hrun hne] at h
  injection h with h
  subst h
  exact List.getLast?_concat _

theorem mem_step_body {w w' : World} (hrun : w.is_running = true) (hne : w.snake_body ≠ [])
    (h : w.step = some w') {x : Cell} (hx : x ∈ w'.snake_body) :
    x ∈ w.snake_body ∨
      x = stepHead w.movement_direction (w.snake_body.getLast hne) w.row_count w.col_count := by
  rw [step_running_eq hrun hne] at h
  injection h with h
  subst h
  rcases List.mem_append.mp hx with hx | hx
  · exact Or.inl (mem_of_mem_shiftBody ((List.dropLast_sublist _).mem hx))
  · exact Or.inr (List.mem_singleton.mp hx)

theorem step_isSome_of_ne_nil {w : World} (hne : w.snake_body ≠ []) : w.step.isSome := by
  by_cases hrun : w.is_running = true
  · rw [step_running_eq hrun hne]; rfl
  · rw [step_not_running (by simpa using hrun)]; rfl

/-- Every reachable world has a non-empty snake body: construction pushes
three cells and no operation ever removes one. -/
theorem reachable_ne_nil {w : World} (hw : Reachable w) : w.snake_body ≠ [] := by
  induction hw with
  | new_world rows cols => simp [World.new, World.init]
  | tick hr hs ih =>
      have hlen := step_length_eq hs
      have hpos := List.length_pos.mpr ih
      exact List.length_pos.mp (by omega)
  | key_dir d hr ih => exact ih
  | key_pause hr ih => exact ih
  | grow hr hlast ih => simp

/-! ### The claims -/

/-- C1: for every running `World` with non-empty snake, `step()` shifts every
snake cell except the head forward one position (cell `i` takes the value
previously held by cell `i + 1` for all `i` in `0..len-1`), and then
overwrites the last element (the head) with a position computed from the
previous head and the current `Direction`: `Up` decrements the row, `Down`
increments the row, `Left` decrements the column, `Right` increments the
column (stated both abstractly via `stepHead` and, away from the grid
boundary, as literal decrement/increment of the coordinate, for in-bounds
heads on grids whose dimensions fit in an `i32`). -/
theorem C1_step_shift_and_new_head {w w' : World}
    (hrun : w.is_running = true) (hne : w.snake_body ≠ [])
    (hstep : w.step = some w') :
    (∀ i, i + 1 < w.snake_body.length → w'.snake_body[i]? = w.snake_body[i + 1]?)
    ∧ w'.snake_body.getLast? =
        some (stepHead w.movement_direction (w.snake_body.getLast hne)
          w.row_count w.col_count)
    ∧ (∀ r c : Nat, w.snake_body.getLast hne = (r, c) →
        w.row_count < 2147483648 → w.col_count < 2147483648 →
        r < w.row_count → c < w.col_count →
          (w.movement_direction = .Up → 0 < r →
            w'.snake_body.getLast? = some (r - 1, c))
          ∧ (w.movement_direction = .Down → r + 1 < w.row_count →
            w'.snake_body.getLast? = some (r + 1, c))
          ∧ (w.movement_direction = .Left → 0 < c →
            w'.snake_body.getLast? = some (r, c - 1))
          ∧ (w.movement_direction = .Right → c + 1 < w.col_count →
            w'.snake_body.getLast? = some (r, c + 1))) := by
  refine ⟨fun i hi => step_getElem? hrun hne hstep i hi, step_getLast hrun hne hstep, ?_⟩
  intro r c hlast hrow31 hcol31 hr hc
  have hrc0 : 0 < w.row_count := Nat.lt_of_le_of_lt (Nat.zero_le r) hr
  have hcc0 : 0 < w.col_count := Nat.lt_of_le_of_lt (Nat.zero_le c) hc
  have hgl := step_getLast hrun hne hstep
  rw [hlast] at hgl
  refine ⟨fun hdir h0 => ?_, fun hdir hb => ?_, fun hdir h0 => ?_, fun hdir hb => ?_⟩
  · rw [hdir, stepHead_up_eq r c _ _ hrc0 hrow31 hr] at hgl
    have harith : (r + w.row_count - 1) % w.row_count = r - 1 := by
      have h1 : r + w.row_count - 1 = (r - 1) + w.row_count := by omega
      rw [h1, Nat.add_mod_right, Nat.mod_eq_of_lt (by omega)]
    rw [hgl, harith]
  · rw [hdir, stepHead_down_eq r c _ _ hrc0 hrow31 hr] at hgl
    rw [hgl, Nat.mod_eq_of_lt hb]
  · rw [hdir, stepHead_left_eq r c _ _ hcc0 hcol31 hc] at hgl
    have harith : (c + w.col_count - 1) % w.col_count = c - 1 := by
      have h1 : c + w.col_count - 1 = (c - 1) + w.col_count := by omega
      rw [h1, Nat.add_mod_right, Nat.mod_eq_of_lt (by omega)]
    rw [hgl, harith]
  · rw [hdir, stepHead_right_eq r c _ _ hcc0 hcol31 hc] at hgl
    rw [hgl, Nat.mod_eq_of_lt hb]

/-- C1 witness: from the initial 20×20 world (head `(0, 2)`, direction
`Left`), one `step()` produces head `stepHead Left (0, 2) 20 20`. -/
theorem C1_witness :
    (⟨true, 20, 20, .Left, [(0, 1), (0, 2), (0, 1)]⟩ : World).snake_body.getLast?
      = some (stepHead (World.new 20 20).movement_direction
          ((World.new 20 20).snake_body.getLast (by decide))
          (World.new 20 20).row_count (World.new 20 20).col_count) :=
  (@C1_step_shift_and_new_head (World.new 20 20)
    ⟨true, 20, 20, .Left, [(0, 1), (0, 2), (0, 1)]⟩
    rfl (by decide) (by decide)).2.1

/-- C2: for every running `World` (with in-bounds head and grid dimensions
that fit in an `i32`), `step()` wraps the new head toroidally: a head at row
`0` moving `Up` yields row `row_count - 1`; a head at row `row_count - 1`
moving `Down` yields row `0`; a head at column `0` moving `Left` yields column
`col_count - 1`; a head at column `col_count - 1` moving `Right` yields column
`0`. -/
theorem C2_step_wraps_toroidally {w w' : World}
    (hrun : w.is_running = true) (hne : w.snake_body ≠ [])
    (hrow31 : w.row_count < 2147483648) (hcol31 : w.col_count < 2147483648)
    (hstep : w.step = some w') :
    ∀ r c : Nat, w.snake_body.getLast hne = (r, c) →
      r < w.row_count → c < w.col_count →
        (w.movement_direction = .Up → r = 0 →
          w'.snake_body.getLast? = some (w.row_count - 1, c))
        ∧ (w.movement_direction = .Down → r = w.row_count - 1 →
          w'.snake_body.getLast? = some (0, c))
        ∧ (w.movement_direction = .Left → c = 0 →
          w'.snake_body.getLast? = some (r, w.col_count - 1))
        ∧ (w.movement_direction = .Right → c = w.col_count - 1 →
          w'.snake_body.getLast? = some (r, 0)) := by
  intro r c hlast hr hc
  have hrc0 : 0 < w.row_count := Nat.lt_of_le_of_lt (Nat.zero_le r) hr
  have hcc0 : 0 < w.col_count := Nat.lt_of_le_of_lt (Nat.zero_le c) hc
  have hgl := step_getLast hrun hne hstep
  rw [hlast] at hgl
  refine ⟨fun hdir h0 => ?_, fun hdir h0 => ?_, fun hdir h0 => ?_, fun hdir h0 => ?_⟩
  · rw [hdir, stepHead_up_eq r c _ _ hrc0 hrow31 hr] at hgl
    subst h0
    rw [hgl, Nat.zero_add, Nat.mod_eq_of_lt (by omega)]
  · rw [hdir, stepHead_down_eq r c _ _ hrc0 hrow31 hr] at hgl
    subst h0
    rw [hgl, Nat.sub_add_cancel hrc0, Nat.mod_self]
  · rw [hdir, stepHead_left_eq r c _ _ hcc0 hcol31 hc] at hgl
    subst h0
    rw [hgl, Nat.zero_add, Nat.mod_eq_of_lt (by omega)]
  · rw [hdir, stepHead_right_eq r c _ _ hcc0 hcol31 hc] at hgl
    subst h0
    rw [hgl, Nat.sub_add_cancel hcc0, Nat.mod_self]

/-- C2 witness: on a 20×20 grid, a running snake `[(0, 0)]` moving `Left`
(head at column `0`) steps to head `(0, 19)`. -/
theorem C2_witness :
    (⟨true, 20, 20, .Left, [(0, 19)]⟩ : World).snake_body.getLast?
      = some (0, (⟨true, 20, 20, .Left, [(0, 0)]⟩ : World).col_count - 1) :=
  ((@C2_step_wraps_toroidally ⟨true, 20, 20, .Left, [(0, 0)]⟩
      ⟨true, 20, 20, .Left, [(0, 19)]⟩
      rfl (by decide) (by decide) (by decide) (by decide))
    0 0 rfl (by decide) (by decide)).2.2.1 rfl rfl

/-- C3: whenever `step()` completes it leaves the length of the snake body
unchanged; the snake grows only via the explicit food-eaten growth path
(`checkAndGrow`), never via `step()` itself. -/
theorem C3_step_preserves_length {w w' : World} (hstep : w.step = some w') :
    w'.snake_body.length = w.snake_body.length :=
  step_length_eq hstep

/-- C3 witness: stepping the initial 20×20 world preserves the body length. -/
theorem C3_witness :
    (⟨true, 20, 20, .Left, [(0, 1), (0, 2), (0, 1)]⟩ : World).snake_body.length
      = (World.new 20 20).snake_body.length :=
  C3_step_preserves_length (w := World.new 20 20) (by decide)

/-- C4: for every `World` with positive grid dimensions (that fit in an
`i32`) whose snake cells all lie within grid bounds, after `step()` every
snake cell — in particular the new head, for every direction and every
previous head position — still lies within
`[0, row_count) × [0, col_count)`. -/
theorem C4_step_preserves_bounds {w w' : World}
    (hrow0 : 0 < w.row_count) (hrow31 : w.row_count < 2147483648)
    (hcol0 : 0 < w.col_count) (hcol31 : w.col_count < 2147483648)
    (hin : ∀ cell ∈ w.snake_body, cell.1 < w.row_count ∧ cell.2 < w.col_count)
    (hstep : w.step = some w') :
    ∀ cell ∈ w'.snake_body, cell.1 < w'.row_count ∧ cell.2 < w'.col_count := by
  intro cell hcell
  obtain ⟨-, hrow, hcol, -⟩ := step_frame hstep
  rw [hrow, hcol]
  by_cases hrun : w.is_running = true
  · by_cases hne : w.snake_body = []
    · rw [step_empty_running hrun hne] at hstep; cases hstep
    · rcases mem_step_body hrun hne hstep hcell with hmem | hhead
      · exact hin cell hmem
      · have hlast := hin _ (List.getLast_mem hne)
        rcases hpair : w.snake_body.getLast hne with ⟨r, c⟩
        rw [hpair] at hlast hhead
        subst hhead
        exact stepHead_bounds w.movement_direction r c _ _
          hrow0 hrow31 hcol0 hcol31 hlast.1 hlast.2
  · rw [step_not_running (by simpa using hrun)] at hstep
    injection hstep with hstep
    subst hstep
    exact hin cell hcell

/-- C4 witness: stepping the initial 20×20 world keeps the (new head) cell
`(0, 1)` of the resulting snake in bounds. -/
theorem C4_witness :
    ((0, 1) : Cell).1 < (⟨true, 20, 20, .Left, [(0, 1), (0, 2), (0, 1)]⟩ : World).row_count
    ∧ ((0, 1) : Cell).2 < (⟨true, 20, 20, .Left, [(0, 1), (0, 2), (0, 1)]⟩ : World).col_count :=
  C4_step_preserves_bounds (w := World.new 20 20)
    (by decide) (by decide) (by decide) (by decide) (by decide) (by decide)
    (0, 1) (by decide)

/-- C6: for every `World` with `running = false`, `step()` is a no-op: it
returns immediately with the state unchanged (snake body, direction, running
flag, and grid dimensions all identical). -/
theorem C6_step_paused_noop {w : World} (h : w.is_running = false) : w.step = some w :=
  step_not_running h

/-- C6 witness: a paused 20×20 world is returned unchanged by `step()`. -/
theorem C6_witness :
    World.step ⟨false, 20, 20, .Left, [(0, 0), (0, 1), (0, 2)]⟩
      = some ⟨false, 20, 20, .Left, [(0, 0), (0, 1), (0, 2)]⟩ :=
  C6_step_paused_noop rfl

/-- C7 counterexample: from the initial 20×20 world the snake after one
`step()` is not `[(0, 1), (0, 2), (0, 19)]` — the head starts at column `2`,
not at column `0`, so no wrap occurs on the first tick. -/
theorem C7_counterexample :
    (World.new 20 20).step.map World.snake_body ≠ some [(0, 1), (0, 2), (0, 19)] := by
  decide

/-- C7 (amended): construction yields `Direction = Left`, `running = true`,
and snake `[(0,0), (0,1), (0,2)]` with head `(0, 2)`; from this initial state
on a 20×20 grid one `step()` yields snake `[(0,1), (0,2), (0,1)]` (the head
moves from column `2` to column `1`); the wrap from column `0` to column `19`
only occurs on the third step, after which the snake is
`[(0,1), (0,0), (0,19)]`. -/
theorem C7_amended :
    (∀ rows cols : Nat,
      (World.new rows cols).movement_direction = .Left
      ∧ (World.new rows cols).is_running = true
      ∧ (World.new rows cols).snake_body = [(0, 0), (0, 1), (0, 2)])
    ∧ (World.new 20 20).step.map World.snake_body = some [(0, 1), (0, 2), (0, 1)]
    ∧ (((World.new 20 20).step.bind World.step).bind World.step).map World.snake_body
        = some [(0, 1), (0, 0), (0, 19)] :=
  ⟨fun rows cols => ⟨rfl, rfl, rfl⟩, by decide, by decide⟩

/-- C9: setting the direction is idempotent — for every world state and every
direction `d`, applying the direction-change operation twice with the same `d`
produces the same state as applying it once. -/
theorem C9_set_direction_idempotent (w : World) (d : MovementDirection) :
    setDirection (setDirection w d) d = setDirection w d :=
  rfl

/-- C10: every reachable world state has a non-empty snake body, so
`step()`'s loop bound `len - 1` never underflows, its indexing stays in
bounds, `last_mut()` returns `Some` (here: the body has a last element), and
the food check's `last().unwrap()` never panics; in particular `step` itself
always completes (`isSome`) on reachable states. -/
theorem C10_reachable_nonempty {w : World} (hw : Reachable w) :
    w.snake_body ≠ [] ∧ w.snake_body.getLast?.isSome ∧ w.step.isSome := by
  have hne := reachable_ne_nil hw
  exact ⟨hne, List.getLast?_isSome.mpr hne, step_isSome_of_ne_nil hne⟩

/-- C10 witness: the initial 20×20 world is reachable, has a non-empty body,
a head, and a completing `step`. -/
theorem C10_witness :
    (World.new 20 20).snake_body ≠ []
    ∧ (World.new 20 20).snake_body.getLast?.isSome
    ∧ (World.new 20 20).step.isSome :=
  C10_reachable_nonempty (Reachable.new_world 20 20)

/-- C5: whenever the food check fires (the head equals the food cell), the
snake body grows by exactly one cell (a duplicate of the current head is
appended as the new tail) and the relocated food — the first roll of the
random stream that is not on the (grown) body — is never contained in the
snake body; when the head differs from the food cell there is no effect. -/
theorem C5_check_and_grow (body : List Cell) (food : Cell) (rolls : Nat → Cell)
    (hterm : body.getLast? = some food → rerollTerminates (body ++ [food]) rolls) :
    (∀ h : body.getLast? = some food,
      checkAndGrow body food rolls hterm
          = some (body ++ [food], rerollFood (body ++ [food]) rolls (hterm h))
        ∧ (body ++ [food]).length = body.length + 1
        ∧ rerollFood (body ++ [food]) rolls (hterm h) ∉ body ++ [food])
    ∧ (∀ hd, body.getLast? = some hd → hd ≠ food →
        checkAndGrow body food rolls hterm = some (body, food)) := by
  constructor
  · intro h
    refine ⟨?_, by simp, Nat.find_spec (hterm h)⟩
    unfold checkAndGrow
    split
    · next heq => rw [heq] at h; cases h
    · next hd heq => rw [dif_pos h]
  · intro hd hhd hne
    unfold checkAndGrow
    split
    · next heq => rw [heq] at hhd; cases hhd
    · next hd' heq =>
        rw [dif_neg]
        intro hf
        rw [hhd] at hf
        exact hne (Option.some.inj hf)

/-- A concrete terminating roll stream for the C5 witness: head and food both
`(5, 5)`, one roll `(1, 1)` which is off the snake. -/
theorem C5_example_hterm :
    ([((5 : Nat), (5 : Nat))] : List Cell).getLast? = some (5, 5) →
      rerollTerminates ([((5 : Nat), (5 : Nat))] ++ [(5, 5)]) (fun _ => (1, 1)) :=
  fun _ => ⟨0, by decide⟩

/-- C5 witness: with snake `[(5, 5)]`, food `(5, 5)` and roll stream
constantly `(1, 1)`, the check grows the body to `[(5, 5), (5, 5)]` and the
relocated food is not on the body. -/
theorem C5_witness :
    checkAndGrow [((5 : Nat), (5 : Nat))] (5, 5) (fun _ => (1, 1)) C5_example_hterm
        = some ([((5 : Nat), (5 : Nat))] ++ [(5, 5)],
            rerollFood ([((5 : Nat), (5 : Nat))] ++ [(5, 5)]) (fun _ => (1, 1))
              (C5_example_hterm rfl))
      ∧ ([((5 : Nat), (5 : Nat))] ++ [(5, 5)]).length = [((5 : Nat), (5 : Nat))].length + 1
      ∧ rerollFood ([((5 : Nat), (5 : Nat))] ++ [(5, 5)]) (fun _ => (1, 1))
          (C5_example_hterm rfl) ∉ [((5 : Nat), (5 : Nat))] ++ [(5, 5)] :=
  (C5_check_and_grow [((5 : Nat), (5 : Nat))] (5, 5) (fun _ => (1, 1)) C5_example_hterm).1 rfl

/-- C8: the food re-roll loop is guaranteed to terminate only while at least
one cell of the grid is not occupied by the snake body.  If the snake occupies
every cell, no in-range roll stream ever satisfies the exit condition (the
loop spins forever); conversely, while a free cell exists, some in-range roll
stream terminates. -/
theorem C8_reroll_termination (row_count col_count : Nat) (body : List Cell)
    (rolls : Nat → Cell) :
    ((∀ r, r < row_count → ∀ c, c < col_count → ((r, c) : Cell) ∈ body) →
      (∀ k, (rolls k).1 < row_count ∧ (rolls k).2 < col_count) →
      ¬ rerollTerminates body rolls)
    ∧ ((∃ r, r < row_count ∧ ∃ c, c < col_count ∧ ((r, c) : Cell) ∉ body) →
        ∃ rolls2 : Nat → Cell,
          (∀ k, (rolls2 k).1 < row_count ∧ (rolls2 k).2 < col_count)
          ∧ rerollTerminates body rolls2) := by
  constructor
  · rintro hfull hin ⟨k, hk⟩
    have hmem := hfull (rolls k).1 (hin k).1 (rolls k).2 (hin k).2
    rw [Prod.mk.eta] at hmem
    exact hk hmem
  · rintro ⟨r, hr, c, hc, hfree⟩
    exact ⟨fun _ => (r, c), fun k => ⟨hr, hc⟩, ⟨0, hfree⟩⟩

/-- C8 witness: on a 1×1 grid fully occupied by the snake `[(0, 0)]`, the
in-range roll stream constantly `(0, 0)` never meets the exit condition. -/
theorem C8_witness :
    ¬ rerollTerminates [((0 : Nat), (0 : Nat))] (fun _ => (0, 0)) :=
  (C8_reroll_termination 1 1 [((0 : Nat), (0 : Nat))] (fun _ => (0, 0))).1
    (by decide) (fun k => ⟨Nat.one_pos, Nat.one_pos⟩)

end RustSnake
